import Mathlib

/-!
Verification of the RLVR translation gym (`rlvr` Python package) against its
natural-language specification.

The Python source is shallowly embedded: Python `float` is modelled by `ℚ`
(exact arithmetic; the spec grants a 1e-9 tolerance for floating error),
Python `dict` by insertion-ordered association lists with first-key-wins
replacement semantics, and a Python method that may `raise` returns the
post-call object state paired with an optional error message.
-/

namespace RLVR

/-- Python `dict` lookup `d[k]` / `k in d`: find the value at the first
(unique) occurrence of the key. -/
def dlookup {α : Type} : List (String × α) → String → Option α
  | [], _ => none
  | (k', v') :: t, k => if k' = k then some v' else dlookup t k

/-- Python `dict` assignment `d[k] = v`: replace the value at an existing key
in place (keeping its position), otherwise append the new binding. -/
def dinsert {α : Type} : List (String × α) → String → α → List (String × α)
  | [], k, v => [(k, v)]
  | (k', v') :: t, k, v =>
    if k' = k then (k, v) :: t else (k', v') :: dinsert t k v

/-- Python dict comprehension `{p: v for p in ks}`. -/
def dictOfList {α : Type} (ks : List String) (v : α) : List (String × α) :=
  ks.foldl (fun d k => dinsert d k v) []

/-! ## A JSON document model

`save_state` serializes the bandit with `json.dump` and `load_state` parses it
back with `json.load`; the document is modelled by this AST.  JSON numbers are
modelled by `ℚ` (Python round-trips its floats exactly through JSON). -/

inductive Json : Type
  | null
  | bool (b : Bool)
  | num (q : ℚ)
  | str (s : String)
  | arr (elems : List Json)
  | obj (fields : List (String × Json))

/-- Python `state["key"]` on a parsed JSON object. -/
def Json.getField : Json → String → Option Json
  | .obj fields, k => dlookup fields k
  | _, _ => none

/-! ## The epsilon-greedy bandit (`rlvr/optimizer/bandit.py`) -/

/-- State of `EpsilonGreedyBandit`.  The history is a list of the JSON
objects (Python dicts) appended by `pick` and `update`. -/
structure EpsilonGreedyBandit : Type where
  prompts : List String
  epsilon : ℚ
  values : List (String × ℚ)
  counts : List (String × ℕ)
  total_selections : ℕ
  history : List Json

namespace EpsilonGreedyBandit

/-- `EpsilonGreedyBandit.__init__`. -/
def init (prompts : List String) (epsilon : ℚ := 1/5) (initial_value : ℚ := 1/2) :
    EpsilonGreedyBandit :=
  { prompts := prompts
    epsilon := epsilon
    values := dictOfList prompts initial_value
    counts := dictOfList prompts 0
    total_selections := 0
    history := [] }

/-- `EpsilonGreedyBandit.update`.  Returns the post-call state together with
the raised error message, if any.  The unknown-prompt `ValueError` is raised
before any mutation, so in that case the state is returned unchanged.
A missing dict key (impossible for states built by `init`) would raise
`KeyError`, modelled by the final branch. -/
def update (b : EpsilonGreedyBandit) (prompt : String) (reward : ℚ) :
    EpsilonGreedyBandit × Option String :=
  if prompt ∈ b.prompts then
    match dlookup b.counts prompt, dlookup b.values prompt with
    | some c, some old_value =>
      let n : ℕ := c + 1
      let new_value : ℚ := old_value + (reward - old_value) / n
      ({ b with
          counts := dinsert b.counts prompt n
          values := dinsert b.values prompt new_value
          history := b.history ++
            [Json.obj [("selection", .num b.total_selections),
                       ("prompt", .str prompt),
                       ("type", .str "update"),
                       ("reward", .num reward),
                       ("new_value", .num new_value),
                       ("count", .num n)]] },
        none)
    | _, _ => (b, some "KeyError")
  else
    (b, some ("Unknown prompt: " ++ prompt))

/-- A sequence of `update` calls for one prompt (exceptions ignored:
each call continues from the post-call state). -/
def updateSeq (b : EpsilonGreedyBandit) (prompt : String) (rewards : List ℚ) :
    EpsilonGreedyBandit :=
  rewards.foldl (fun st r => (update st prompt r).1) b

/-- Python `history[-100:]`: the last `n` elements. -/
def lastN {α : Type} (n : ℕ) (l : List α) : List α :=
  l.drop (l.length - n)

/-- `EpsilonGreedyBandit.save_state`: the JSON document written to the file. -/
def save_state (b : EpsilonGreedyBandit) : Json :=
  .obj [("prompts", .arr (b.prompts.map Json.str)),
        ("epsilon", .num b.epsilon),
        ("values", .obj (b.values.map fun kv => (kv.1, Json.num kv.2))),
        ("counts", .obj (b.counts.map fun kv => (kv.1, Json.num kv.2))),
        ("total_selections", .num b.total_selections),
        ("history", .arr (lastN 100 b.history))]

/-- Decode a JSON array of strings (the parsed `state["prompts"]`). -/
def asStrList : List Json → Option (List String)
  | [] => some []
  | .str s :: t =>
    match asStrList t with
    | some l => some (s :: l)
    | none => none
  | _ :: _ => none

/-- Decode a JSON object whose values are numbers (`state["values"]`). -/
def asQDict : List (String × Json) → Option (List (String × ℚ))
  | [] => some []
  | (k, .num q) :: t =>
    match asQDict t with
    | some l => some ((k, q) :: l)
    | none => none
  | _ :: _ => none

/-- A JSON number that denotes a non-negative integer (`state["counts"]`
entries, `state["total_selections"]`). -/
def asNat (j : Json) : Option ℕ :=
  match j with
  | .num q => if q.den = 1 ∧ 0 ≤ q.num then some q.num.toNat else none
  | _ => none

/-- Decode a JSON object whose values are non-negative integers. -/
def asNatDict : List (String × Json) → Option (List (String × ℕ))
  | [] => some []
  | (k, j) :: t =>
    match asNat j, asNatDict t with
    | some n, some l => some ((k, n) :: l)
    | _, _ => none

/-- `EpsilonGreedyBandit.load_state` on a parsed JSON document: every field of
the receiver is replaced from the document (`none` models the `KeyError` /
type error raised on a malformed document; `history` falls back to `[]` via
`state.get("history", [])` and is stored as the raw parsed list). -/
def load_state (_self : EpsilonGreedyBandit) (state : Json) :
    Option EpsilonGreedyBandit := do
  let prompts ← match state.getField "prompts" with
    | some (.arr xs) => asStrList xs
    | _ => none
  let epsilon ← match state.getField "epsilon" with
    | some (.num q) => some q
    | _ => none
  let values ← match state.getField "values" with
    | some (.obj fs) => asQDict fs
    | _ => none
  let counts ← match state.getField "counts" with
    | some (.obj fs) => asNatDict fs
    | _ => none
  let ts ← match state.getField "total_selections" with
    | some j => asNat j
    | none => none
  let history := match state.getField "history" with
    | some (.arr xs) => xs
    | _ => []
  some { prompts := prompts, epsilon := epsilon, values := values,
         counts := counts, total_selections := ts, history := history }

end EpsilonGreedyBandit

/-! ## Score aggregation (`rlvr/utils/scoring.py`) -/

/-- One element of `component_scores`: a metric-result dict, read through
`score_dict.get("name")` and `score_dict.get("score", 0.0)` (either key may
be absent). -/
structure ScoreDict : Type where
  name : Option String
  score : Option ℚ

/-- `aggregate_scores`: weighted average of the component scores whose name
appears in the weight table; `0` unless the accumulated weight is positive. -/
def aggregate_scores (component_scores : List ScoreDict)
    (weights : List (String × ℚ)) : ℚ :=
  let acc := component_scores.foldl
    (fun (acc : ℚ × ℚ) sd =>
      match sd.name with
      | some metric_name =>
        match dlookup weights metric_name with
        | some weight => (acc.1 + weight * sd.score.getD 0, acc.2 + weight)
        | none => acc
      | none => acc)
    (0, 0)
  if acc.2 > 0 then acc.1 / acc.2 else 0

/-- The weight the table assigns to a score record, if its name is present
in both places. -/
def weightOf (weights : List (String × ℚ)) (sd : ScoreDict) : Option ℚ :=
  sd.name.bind (dlookup weights)

/-- Σ wᵢ over the records whose name is present in both the score list and
the weight table. -/
def totalWeight (component_scores : List ScoreDict)
    (weights : List (String × ℚ)) : ℚ :=
  ((component_scores.filter fun sd => (weightOf weights sd).isSome).map
    fun sd => (weightOf weights sd).getD 0).sum

/-- Σ wᵢ·sᵢ over the records whose name is present in both the score list
and the weight table. -/
def weightedSum (component_scores : List ScoreDict)
    (weights : List (String × ℚ)) : ℚ :=
  ((component_scores.filter fun sd => (weightOf weights sd).isSome).map
    fun sd => (weightOf weights sd).getD 0 * sd.score.getD 0).sum

/-- The aggregate the claim describes, written from its words: the weighted
mean over the metrics present in both tables, `0` when the total weight is
zero. -/
def claimAggregate (component_scores : List ScoreDict)
    (weights : List (String × ℚ)) : ℚ :=
  if totalWeight component_scores weights = 0 then 0
  else weightedSum component_scores weights / totalWeight component_scores weights

/-! ## Candidate ranking (`rlvr/gym/run.py` main loop and
`rlvr/server/api.py` translate handler) -/

/-- A scored candidate as built in generation order (`id = "c<i>"`); only the
fields the ranking step reads are carried. -/
structure ScoredCandidate : Type where
  id : String
  text : String
  R : ℚ

/-- `scored_candidates.sort(key=lambda x: x["R"], reverse=True)`: Python's
stable sort in descending `R` order. -/
def sortCandidates (cs : List ScoredCandidate) : List ScoredCandidate :=
  cs.mergeSort fun a b => decide (b.R ≤ a.R)

/-- `best = scored_candidates[0]` after the sort (`none` models the
`IndexError` on an empty list). -/
def bestCandidate (cs : List ScoredCandidate) : Option ScoredCandidate :=
  (sortCandidates cs).head?

/-! ## Text helpers

Texts are worked on as `List Char`.  Python's `str.lower()` is modelled for
the characters the Hawaiian metrics meet: ASCII letters and the macron
vowels (the ʻokina `ʻ` has no case). -/

/-- Python `str.lower()` on one character. -/
def pyLowerChar (c : Char) : Char :=
  if c = 'Ā' then 'ā' else if c = 'Ē' then 'ē' else if c = 'Ī' then 'ī'
  else if c = 'Ō' then 'ō' else if c = 'Ū' then 'ū' else c.toLower

/-- Python `str.lower()`. -/
def pyLower (s : List Char) : List Char := s.map pyLowerChar

/-- Python `str.strip()`: drop leading and trailing whitespace. -/
def pyStrip (s : List Char) : List Char :=
  ((s.dropWhile Char.isWhitespace).reverse.dropWhile Char.isWhitespace).reverse

def pySplitAux : List Char → List Char → List (List Char)
  | [], acc => if acc = [] then [] else [acc.reverse]
  | c :: t, acc =>
    if c.isWhitespace then
      if acc = [] then pySplitAux t [] else acc.reverse :: pySplitAux t []
    else pySplitAux t (c :: acc)

/-- Python `str.split()` with no argument: split on whitespace runs,
discarding empty tokens. -/
def pySplit (s : List Char) : List (List Char) := pySplitAux s []

/-! ## Articles ke/ka metric (`rlvr/metrics/articles_ke_ka.py`)

The metric is parametrized by the exception list its constructor loads from
the `ke_exceptions` resource file (one lowercase word per line). -/

namespace ArticlesKeKa

/-- `ArticlesKeKa._normalize_word`: `re.sub(r'[.,!?;:"]', '', word).strip()`. -/
def normalizeWord (word : List Char) : List Char :=
  pyStrip (word.filter fun c => !(c ∈ ['.', ',', '!', '?', ';', ':', '"']))

/-- `ArticlesKeKa._should_use_ke`: exception list first, then the KEAO rule
extended with the ʻokina (`first_letter in ['k', 'e', 'a', 'o', 'ʻ']`);
empty normalized word ⇒ `first_letter = ''` ⇒ `False`. -/
def shouldUseKe (ke_exceptions : List (List Char)) (word : List Char) : Bool :=
  let normalized := pyLower (normalizeWord word)
  if normalized ∈ ke_exceptions then true
  else
    match normalized with
    | [] => false
    | first_letter :: _ => first_letter ∈ ['k', 'e', 'a', 'o', 'ʻ']

def findArticlePairsAux : ℕ → List (List Char) → List (ℕ × List Char × List Char)
  | _, [] => []
  | _, [_] => []
  | i, word :: next :: t =>
    if pyLower word = ['k', 'e'] ∨ pyLower word = ['k', 'a'] then
      (i, word, next) :: findArticlePairsAux (i + 1) (next :: t)
    else
      findArticlePairsAux (i + 1) (next :: t)

/-- `ArticlesKeKa._find_article_pairs`: all `(index, article, next_word)`
with `words[i].lower() in ['ke', 'ka']`. -/
def findArticlePairs (words : List (List Char)) : List (ℕ × List Char × List Char) :=
  findArticlePairsAux 0 words

/-- One entry of the `pairs` diagnostic list. -/
structure PairDetail : Type where
  article : List Char
  word : List Char
  correct : Bool
  should_be : List Char
  reason : String

/-- The result of `ArticlesKeKa.score` (name/version fields omitted). -/
structure KeKaResult : Type where
  score : ℚ
  checked : ℕ
  correct : ℕ
  pairs : List PairDetail

/-- `ArticlesKeKa.score`. -/
def score (ke_exceptions : List (List Char)) (text : List Char) : KeKaResult :=
  let words := pySplit text
  let pairs := findArticlePairs words
  if pairs = [] then
    { score := 1, checked := 0, correct := 0, pairs := [] }
  else
    let pair_details := pairs.map fun pr =>
      let article := pr.2.1
      let next_word := pr.2.2
      let should_be_ke := shouldUseKe ke_exceptions next_word
      let is_correct := (should_be_ke && (pyLower article == ['k', 'e'])) ||
        (!should_be_ke && (pyLower article == ['k', 'a']))
      { article := article
        word := next_word
        correct := is_correct
        should_be := if should_be_ke then ['k', 'e'] else ['k', 'a']
        reason := if pyLower next_word ∈ ke_exceptions then "exception" else "KEAO rule"
        : PairDetail }
    let correct_count := pair_details.countP (·.correct)
    { score := (correct_count : ℚ) / pairs.length
      checked := pairs.length
      correct := correct_count
      pairs := pair_details }

/-- The per-pair correctness rule exactly as the claim words it: `ke` iff the
next word's first character is in `{k, e, a, o}` or the word is in the
exception list, `ka` in every other case (the ʻokina is NOT in the set). -/
def claimPairCorrect (ke_exceptions : List (List Char))
    (article next_word : List Char) : Bool :=
  let normalized := pyLower (normalizeWord next_word)
  let claim_ke := normalized ∈ ke_exceptions ||
    (match normalized with
     | [] => false
     | first_letter :: _ => first_letter ∈ ['k', 'e', 'a', 'o'])
  if claim_ke then pyLower article == ['k', 'e'] else pyLower article == ['k', 'a']

/-- The score the claim predicts: claim-correct pairs over checked pairs,
vacuously 1 with no pairs. -/
def claimScore (ke_exceptions : List (List Char)) (text : List Char) : ℚ :=
  let pairs := findArticlePairs (pySplit text)
  if pairs = [] then 1
  else ((pairs.countP fun pr => claimPairCorrect ke_exceptions pr.2.1 pr.2.2 : ℕ) : ℚ) /
    pairs.length

/-- The amended per-pair rule: as the claim, but with the ʻokina added to the
letter set that takes `ke` (what the code implements). -/
def amendedPairCorrect (ke_exceptions : List (List Char))
    (article next_word : List Char) : Bool :=
  if shouldUseKe ke_exceptions next_word then pyLower article == ['k', 'e']
  else pyLower article == ['k', 'a']

end ArticlesKeKa

/-! ## TAM particles metric (`rlvr/metrics/tam_particles.py`)

The constructor loads a rule table from the `tam_regex` resource file and
compiles its patterns (substituting the `VERB` placeholder).  The table file
is not part of the sources, so a compiled pattern is embedded abstractly as
its template string paired with its match function on a text. -/

/-- A compiled TAM pattern: the raw template (what the diagnostic lists
record) and the compiled case-insensitive search. -/
structure TamPattern : Type where
  template : String
  search : List Char → Bool

/-- The parsed rule table `{neg: {marker, valid[], invalid[]}, aff:
{valid[]}}` with every pattern compiled. -/
structure TamRules : Type where
  negMarker : List Char → Bool
  negValid : List TamPattern
  negInvalid : List TamPattern
  affValid : List TamPattern

/-- The dict returned by `_check_negative_context` /
`_check_affirmative_context` (keys the Python dict omits are `[]` here). -/
structure TamCheck : Type where
  has_negative : Bool
  valid : Bool
  valid_patterns : List String
  invalid_patterns : List String
  deriving DecidableEq

namespace TAMParticles

/-- `TAMParticles._check_negative_context`. -/
def checkNegativeContext (rules : TamRules) (text : List Char) : TamCheck :=
  if !rules.negMarker text then
    { has_negative := false, valid := true, valid_patterns := [], invalid_patterns := [] }
  else
    let valid_patterns := (rules.negValid.filter fun p => p.search text).map (·.template)
    let invalid_patterns := (rules.negInvalid.filter fun p => p.search text).map (·.template)
    { has_negative := true
      valid := decide (valid_patterns.length > 0) && decide (invalid_patterns.length = 0)
      valid_patterns := valid_patterns
      invalid_patterns := invalid_patterns }

/-- `TAMParticles._check_affirmative_context`. -/
def checkAffirmativeContext (rules : TamRules) (text : List Char) : TamCheck :=
  let valid_patterns := (rules.affValid.filter fun p => p.search text).map (·.template)
  { has_negative := false
    valid := true
    valid_patterns := valid_patterns
    invalid_patterns := [] }

/-- The result of `TAMParticles.score` (name/version fields omitted). -/
structure TamResult : Type where
  score : ℚ
  details : TamCheck

/-- `TAMParticles.score`. -/
def score (rules : TamRules) (text : List Char) : TamResult :=
  let neg_check := checkNegativeContext rules text
  if neg_check.has_negative then
    let s : ℚ :=
      if neg_check.valid then 1
      else if neg_check.invalid_patterns ≠ [] then 0
      else 1/2
    { score := s, details := neg_check }
  else
    let aff_check := checkAffirmativeContext rules text
    { score := if aff_check.valid then 1 else 7/10, details := aff_check }

/-- Case-insensitive contiguous substring search: the compiled form of the
literal parts of the resource patterns. -/
def ciSearch (pattern : List Char) (text : List Char) : Bool :=
  go (pyLower text)
where
  go : List Char → Bool
    | [] => pattern.isEmpty
    | c :: t => pattern.isPrefixOf (c :: t) || go t

/-- Modelled from the spec: the standard Hawaiian TAM rule table
`lang/haw/regex_tam.json` is referenced by the sources and the tests but the
file itself is not among them.  Per the spec the negation marker is `ʻAʻole`,
`ʻAʻole i/e VERB` are the valid negative past/future patterns, and
`ʻAʻole ua` (negation + realized-past particle) is the forbidden
combination; `Ua VERB` / `Ke VERB nei` are affirmative TAM patterns. -/
def standardTamRules : TamRules :=
  { negMarker := ciSearch "ʻaʻole".data
    negValid := [⟨"ʻAʻole i VERB", ciSearch "ʻaʻole i ".data⟩,
                 ⟨"ʻAʻole e VERB", ciSearch "ʻaʻole e ".data⟩]
    negInvalid := [⟨"ʻAʻole ua", ciSearch "ʻaʻole ua".data⟩]
    affValid := [⟨"Ua VERB", ciSearch "ua ".data⟩,
                 ⟨"Ke VERB nei", ciSearch "ke ".data⟩] }

end TAMParticles

/-! ## Diacritics metric (`rlvr/metrics/diacritics.py`)

Parametrized by the required canonical forms the constructor loads from the
`lex_diacritics` resource (a Python set; the parameter order is its
iteration order). -/

namespace Diacritics

/-- `Diacritics._normalize_word`. -/
def normalizeWord (word : List Char) : List Char :=
  pyStrip (word.filter fun c => !(c ∈ ['.', ',', '!', '?', ';', ':', '"']))

/-- Replacement table for the kahakō (macron) vowels. -/
def plainOfMacron (c : Char) : Char :=
  if c = 'ā' then 'a' else if c = 'ē' then 'e' else if c = 'ī' then 'i'
  else if c = 'ō' then 'o' else if c = 'ū' then 'u'
  else if c = 'Ā' then 'A' else if c = 'Ē' then 'E' else if c = 'Ī' then 'I'
  else if c = 'Ō' then 'O' else if c = 'Ū' then 'U' else c

/-- `Diacritics._strip_diacritics`: drop the ʻokina, replace macron vowels. -/
def stripDiacritics (word : List Char) : List Char :=
  (word.filter fun c => !(c = 'ʻ')).map plainOfMacron

/-- One entry of the `words_to_check` diagnostic list. -/
structure CheckedWord : Type where
  word : List Char
  normalized : List Char
  required : List Char
  correct : Bool
  deriving DecidableEq

/-- The result of `Diacritics.score` (name/version fields omitted). -/
structure DiaResult : Type where
  score : ℚ
  checked : ℕ
  correct : ℕ
  words_to_check : List CheckedWord

/-- `Diacritics.score`. -/
def score (required_forms : List (List Char)) (text : List Char) : DiaResult :=
  let words := pySplit text
  let words_to_check := words.filterMap fun word =>
    let normalized := pyLower (normalizeWord word)
    let base_form := stripDiacritics normalized
    match required_forms.find? (fun required => stripDiacritics required == base_form) with
    | some required =>
      some { word := word, normalized := normalized, required := required
             correct := normalized == required : CheckedWord }
    | none => none
  let correct_count := words_to_check.countP (·.correct)
  { score := if words_to_check = [] then 1
      else (correct_count : ℚ) / words_to_check.length
    checked := words_to_check.length
    correct := correct_count
    words_to_check := words_to_check }

end Diacritics

/-! ## English metric score formulas

The four English metrics (`english_articles.py`, `english_subject_verb.py`,
`english_spelling.py`, `english_punctuation.py`) all compute
`max(0.0, 1.0 - errors / max(checks, 1))` from the items their regex layers
detect.  The final arithmetic of each `score` method is embedded as a
function of the detected counts; the range invariant is proved for every
possible outcome of the detection layer, which covers every input text. -/

/-- `ArticlesAAn.score`: `score = 1.0 - len(errors)/max(len(checks), 1)`,
returned as `max(0.0, score)`. -/
def ArticlesAAn.scoreVal (errors checks : ℕ) : ℚ :=
  max 0 (1 - (errors : ℚ) / (max checks 1 : ℕ))

/-- `SubjectVerbAgreement.score`: same final arithmetic over its
`errors`/`checks` lists. -/
def SubjectVerbAgreement.scoreVal (errors checks : ℕ) : ℚ :=
  max 0 (1 - (errors : ℚ) / (max checks 1 : ℕ))

/-- `SpellingChecker.score`: `1.0 - len(errors)/max(words_checked, 1)`,
clamped at 0. -/
def SpellingChecker.scoreVal (errors words_checked : ℕ) : ℚ :=
  max 0 (1 - (errors : ℚ) / (max words_checked 1 : ℕ))

/-- `PunctuationChecker.score`: the estimated denominator is
`sentences * 2 + commas + 1`. -/
def PunctuationChecker.scoreVal (errors sentences commas : ℕ) : ℚ :=
  max 0 (1 - (errors : ℚ) / (max (sentences * 2 + commas + 1) 1 : ℕ))

/-! ## Bandit statistics and the stats endpoint
(`EpsilonGreedyBandit.get_stats`, `rlvr/server/api.py get_language_stats`) -/

/-- One entry of `get_stats()["prompts"]`. -/
structure PromptStat : Type where
  prompt : String
  value : ℚ
  count : ℕ
  selection_rate : ℚ

/-- The dict returned by `EpsilonGreedyBandit.get_stats`. -/
structure BanditStats : Type where
  total_selections : ℕ
  epsilon : ℚ
  prompts : List PromptStat

namespace EpsilonGreedyBandit

/-- The `for prompt in self.prompts` loop of `get_stats` (`none` models the
`KeyError` on a value/count dict missing a prompt, impossible for states
built by `init` or `load_state` of an `init` save). -/
def statsEntries (b : EpsilonGreedyBandit) : List String → Option (List PromptStat)
  | [] => some []
  | p :: t =>
    match dlookup b.values p, dlookup b.counts p, statsEntries b t with
    | some v, some c, some rest =>
      some ({ prompt := p, value := v, count := c
              selection_rate := (c : ℚ) / (max 1 b.total_selections : ℕ) } :: rest)
    | _, _, _ => none

/-- `EpsilonGreedyBandit.get_stats`: per-prompt entries, then
`stats["prompts"].sort(key=lambda p: p["value"], reverse=True)`. -/
def get_stats (b : EpsilonGreedyBandit) : Option BanditStats :=
  (statsEntries b b.prompts).map fun entries =>
    { total_selections := b.total_selections
      epsilon := b.epsilon
      prompts := entries.mergeSort fun x y => decide (y.value ≤ x.value) }

end EpsilonGreedyBandit

/-- The `/stats/{lang_code}` handler `get_language_stats`: HTTP 404 when the
language has no bandit in the process-wide `BANDITS` map, otherwise the
bandit's statistics (an uncaught `KeyError` inside `get_stats` would surface
as HTTP 500). -/
def get_language_stats (bandits : List (String × EpsilonGreedyBandit))
    (lang_code : String) : Except (ℕ × String) BanditStats :=
  match dlookup bandits lang_code with
  | none => .error (404, "Language " ++ lang_code ++ " not initialized")
  | some bandit =>
    match EpsilonGreedyBandit.get_stats bandit with
    | some st => .ok st
    | none => .error (500, "KeyError")

/-- The HTTP status of a handler outcome, if it raised an `HTTPException`. -/
def errorStatus {α : Type} : Except (ℕ × String) α → Option ℕ
  | .error e => some e.1
  | .ok _ => none

/-! ## Helper lemmas -/

theorem dlookup_dinsert_self {α : Type} (l : List (String × α)) (k : String) (v : α) :
    dlookup (dinsert l k v) k = some v := by
  induction l with
  | nil => simp [dinsert, dlookup]
  | cons h t ih =>
    obtain ⟨k', v'⟩ := h
    by_cases hk : k' = k
    · simp [dinsert, hk, dlookup]
    · simp [dinsert, hk, dlookup, ih]

theorem dlookup_dinsert_ne {α : Type} (l : List (String × α)) (k k' : String) (v : α)
    (h : k ≠ k') : dlookup (dinsert l k v) k' = dlookup l k' := by
  induction l with
  | nil => simp [dinsert, dlookup, h]
  | cons hd t ih =>
    obtain ⟨k₀, v₀⟩ := hd
    by_cases hk : k₀ = k
    · simp [dinsert, hk, dlookup, h]
    · simp [dinsert, hk, dlookup, ih]

theorem dlookup_dictOfList_aux {α : Type} (ks : List String) (p : String) (v : α) :
    ∀ acc : List (String × α),
      dlookup (ks.foldl (fun d k => dinsert d k v) acc) p =
        if p ∈ ks then some v else dlookup acc p := by
  induction ks with
  | nil => intro acc; simp
  | cons k t ih =>
    intro acc
    simp only [List.foldl_cons, ih]
    by_cases hp : p ∈ t
    · simp [hp]
    · by_cases hk : p = k
      · simp [hp, hk, dlookup_dinsert_self]
      · have : k ≠ p := fun h => hk h.symm
        simp [hp, hk, dlookup_dinsert_ne _ _ _ _ this]

theorem dlookup_dictOfList {α : Type} (ks : List String) (p : String) (v : α)
    (h : p ∈ ks) : dlookup (dictOfList ks v) p = some v := by
  unfold dictOfList
  rw [dlookup_dictOfList_aux]
  simp [h]

namespace EpsilonGreedyBandit

theorem update_prompts (b : EpsilonGreedyBandit) (p : String) (r : ℚ) :
    (update b p r).1.prompts = b.prompts := by
  unfold update
  by_cases hp : p ∈ b.prompts
  · simp only [hp, if_true]
    rcases hc : dlookup b.counts p with _ | c <;>
      rcases hv : dlookup b.values p with _ | v <;> simp [hc, hv]
  · simp [hp]

/-- Effect of one successful `update` on the updated prompt's count and value. -/
theorem update_lookup (b : EpsilonGreedyBandit) (p : String) (r : ℚ) (c : ℕ) (v : ℚ)
    (hp : p ∈ b.prompts) (hc : dlookup b.counts p = some c)
    (hv : dlookup b.values p = some v) :
    dlookup (update b p r).1.counts p = some (c + 1) ∧
    dlookup (update b p r).1.values p = some (v + (r - v) / (c + 1)) := by
  unfold update
  simp only [hp, if_true, hc, hv]
  refine ⟨dlookup_dinsert_self _ _ _, ?_⟩
  have h := dlookup_dinsert_self b.values p (v + (r - v) / ((c + 1 : ℕ) : ℚ))
  push_cast at h ⊢
  exact h

/-- Invariant carried through a run of successful updates to one prompt:
count `k` and value `s / k` become `k + |rs|` and `(s + Σ rs) / (k + |rs|)`. -/
theorem updateSeq_mean_aux (p : String) :
    ∀ (rs : List ℚ) (b : EpsilonGreedyBandit) (k : ℕ) (s : ℚ),
      p ∈ b.prompts → 1 ≤ k →
      dlookup b.counts p = some k →
      dlookup b.values p = some (s / k) →
      dlookup (updateSeq b p rs).counts p = some (k + rs.length) ∧
      dlookup (updateSeq b p rs).values p =
        some ((s + rs.sum) / (k + rs.length)) := by
  intro rs
  induction rs with
  | nil =>
    intro b k s hp hk hc hv
    simpa [updateSeq] using ⟨hc, hv⟩
  | cons r t ih =>
    intro b k s hp hk hc hv
    have hstep := EpsilonGreedyBandit.update_lookup b p r k (s / k) hp hc hv
    have hps : p ∈ ((EpsilonGreedyBandit.update b p r).1).prompts := by
      rw [EpsilonGreedyBandit.update_prompts]; exact hp
    have hkQ : (k : ℚ) ≠ 0 := by
      have : 0 < k := hk
      exact_mod_cast this.ne'
    have hk1Q : (k : ℚ) + 1 ≠ 0 := by positivity
    have hval : s / k + (r - s / k) / ((k : ℚ) + 1) = (s + r) / ((k + 1 : ℕ) : ℚ) := by
      push_cast
      field_simp
      ring
    have hv' : dlookup ((EpsilonGreedyBandit.update b p r).1).values p =
        some ((s + r) / ((k + 1 : ℕ) : ℚ)) := by
      rw [hstep.2, hval]
    have := ih ((EpsilonGreedyBandit.update b p r).1) (k + 1) (s + r) hps
      (Nat.le_succ_of_le hk) hstep.1 hv'
    unfold updateSeq at this ⊢
    simp only [List.foldl_cons]
    refine ⟨?_, ?_⟩
    · rw [this.1]
      congr 1
      simp only [List.length_cons]
      omega
    · rw [this.2]
      congr 2
      · simp only [List.sum_cons]
        ring
      · simp only [List.length_cons]
        push_cast
        ring

theorem asStrList_map_str (l : List String) :
    asStrList (l.map Json.str) = some l := by
  induction l with
  | nil => rfl
  | cons h t ih => simp [asStrList, ih]

theorem asQDict_map (l : List (String × ℚ)) :
    asQDict (l.map fun kv => (kv.1, Json.num kv.2)) = some l := by
  induction l with
  | nil => rfl
  | cons h t ih => simp [asQDict, ih]

theorem asNat_natCast (n : ℕ) : asNat (Json.num n) = some n := by
  simp [asNat, Rat.den_natCast, Rat.num_natCast]

theorem asNatDict_map (l : List (String × ℕ)) :
    asNatDict (l.map fun kv => (kv.1, Json.num kv.2)) = some l := by
  induction l with
  | nil => rfl
  | cons h t ih => simp [asNatDict, asNat_natCast, ih]

/-- Round trip: `load_state` of a `save_state` document restores every field
except that the history is truncated to its last 100 entries. -/
theorem load_save_roundtrip (b fresh : EpsilonGreedyBandit) :
    load_state fresh (save_state b) =
      some { b with history := lastN 100 b.history } := by
  simp [load_state, save_state, Json.getField, dlookup,
    asStrList_map_str, asQDict_map, asNatDict_map, asNat_natCast]

end EpsilonGreedyBandit

theorem aggregate_foldl_eq (weights : List (String × ℚ)) :
    ∀ (cs : List ScoreDict) (acc : ℚ × ℚ),
      cs.foldl
        (fun (acc : ℚ × ℚ) sd =>
          match sd.name with
          | some metric_name =>
            match dlookup weights metric_name with
            | some weight => (acc.1 + weight * sd.score.getD 0, acc.2 + weight)
            | none => acc
          | none => acc)
        acc =
      (acc.1 + weightedSum cs weights, acc.2 + totalWeight cs weights) := by
  intro cs
  induction cs with
  | nil => intro acc; simp [weightedSum, totalWeight]
  | cons sd t ih =>
    intro acc
    simp only [List.foldl_cons]
    rcases hn : sd.name with _ | nm
    · rw [ih]
      have hw : weightOf weights sd = none := by simp [weightOf, hn]
      simp [weightedSum, totalWeight, List.filter_cons, hw]
    · rcases hl : dlookup weights nm with _ | w
      · rw [ih]
        have hw : weightOf weights sd = none := by simp [weightOf, hn, hl]
        simp [weightedSum, totalWeight, List.filter_cons, hw, hl]
      · rw [ih]
        have hw : weightOf weights sd = some w := by simp [weightOf, hn, hl]
        simp only [weightedSum, totalWeight, List.filter_cons, hw, Option.isSome_some,
          if_true, List.map_cons, List.sum_cons, Option.getD_some, hl, Prod.mk.injEq]
        constructor <;> ring

/-! ## Claims -/

/-- C1: after `n ≥ 1` calls `update(p, r₁) … update(p, rₙ)` on a freshly
constructed `EpsilonGreedyBandit` whose prompt list contains `p` (any
epsilon and initial value, no other updates to `p`), `value[p]` equals the
arithmetic mean of `r₁…rₙ` within `1e-9` and `count[p]` equals `n`. -/
theorem bandit_update_value_is_mean (prompts : List String)
    (epsilon initial_value : ℚ) (p : String) (hp : p ∈ prompts)
    (rewards : List ℚ) (hne : rewards ≠ []) :
    dlookup (EpsilonGreedyBandit.updateSeq
      (EpsilonGreedyBandit.init prompts epsilon initial_value) p rewards).counts p =
      some rewards.length ∧
    ∃ val, dlookup (EpsilonGreedyBandit.updateSeq
      (EpsilonGreedyBandit.init prompts epsilon initial_value) p rewards).values p =
      some val ∧ |val - rewards.sum / rewards.length| ≤ 1 / 1000000000 := by
  obtain ⟨r, t, rfl⟩ : ∃ r t, rewards = r :: t := by
    cases rewards with
    | nil => exact absurd rfl hne
    | cons r t => exact ⟨r, t, rfl⟩
  set b0 := EpsilonGreedyBandit.init prompts epsilon initial_value with hb0
  have hc0 : dlookup b0.counts p = some 0 := dlookup_dictOfList prompts p 0 hp
  have hv0 : dlookup b0.values p = some initial_value :=
    dlookup_dictOfList prompts p initial_value hp
  have hstep := EpsilonGreedyBandit.update_lookup b0 p r 0 initial_value hp hc0 hv0
  have hv1 : dlookup ((EpsilonGreedyBandit.update b0 p r).1).values p =
      some (r / ((1 : ℕ) : ℚ)) := by
    rw [hstep.2]
    congr 1
    push_cast
    ring
  have hp1 : p ∈ ((EpsilonGreedyBandit.update b0 p r).1).prompts := by
    rw [EpsilonGreedyBandit.update_prompts]; exact hp
  have haux := EpsilonGreedyBandit.updateSeq_mean_aux p t
    ((EpsilonGreedyBandit.update b0 p r).1) 1 r hp1 le_rfl hstep.1 hv1
  have hseq : EpsilonGreedyBandit.updateSeq b0 p (r :: t) =
      EpsilonGreedyBandit.updateSeq ((EpsilonGreedyBandit.update b0 p r).1) p t := by
    simp [EpsilonGreedyBandit.updateSeq]
  rw [hseq]
  refine ⟨?_, ⟨(r + t.sum) / ((1 : ℕ) + (t.length : ℚ)), haux.2, ?_⟩⟩
  · rw [haux.1]
    congr 1
    simp only [List.length_cons]
    omega
  · have : (r + t.sum) / ((1 : ℕ) + (t.length : ℚ)) =
        (r :: t).sum / ((r :: t).length : ℚ) := by
      simp only [List.sum_cons, List.length_cons]
      push_cast
      ring_nf
    rw [this]
    simp

/-- C1 witness: two updates with rewards 1 and 0 on prompt "A" of a fresh
two-prompt bandit give count 2 and value within 1e-9 of the mean 1/2. -/
theorem bandit_update_value_is_mean_witness :
    dlookup (EpsilonGreedyBandit.updateSeq
      (EpsilonGreedyBandit.init ["A", "B"] (1/5) (1/2)) "A" [1, 0]).counts "A" =
      some ([(1 : ℚ), 0]).length ∧
    ∃ val, dlookup (EpsilonGreedyBandit.updateSeq
      (EpsilonGreedyBandit.init ["A", "B"] (1/5) (1/2)) "A" [1, 0]).values "A" =
      some val ∧ |val - ([(1 : ℚ), 0]).sum / ([(1 : ℚ), 0]).length| ≤ 1 / 1000000000 :=
  bandit_update_value_is_mean ["A", "B"] (1/5) (1/2) "A" (by decide) [1, 0] (by simp)

/-- C8: `update` with a prompt outside the prompt list raises
`ValueError("Unknown prompt: …")` and leaves values, counts,
total_selections and history untouched. -/
theorem bandit_update_unknown_prompt (b : EpsilonGreedyBandit) (q : String)
    (r : ℚ) (h : q ∉ b.prompts) :
    EpsilonGreedyBandit.update b q r = (b, some ("Unknown prompt: " ++ q)) ∧
    (EpsilonGreedyBandit.update b q r).1.values = b.values ∧
    (EpsilonGreedyBandit.update b q r).1.counts = b.counts ∧
    (EpsilonGreedyBandit.update b q r).1.total_selections = b.total_selections ∧
    (EpsilonGreedyBandit.update b q r).1.history = b.history := by
  have heq : EpsilonGreedyBandit.update b q r = (b, some ("Unknown prompt: " ++ q)) := by
    simp [EpsilonGreedyBandit.update, h]
  exact ⟨heq, by rw [heq], by rw [heq], by rw [heq], by rw [heq]⟩

/-- C8 witness: updating prompt "B" on a fresh bandit over ["A"] errors and
changes nothing. -/
theorem bandit_update_unknown_prompt_witness :
    EpsilonGreedyBandit.update (EpsilonGreedyBandit.init ["A"] (1/5) (1/2)) "B" 1 =
      (EpsilonGreedyBandit.init ["A"] (1/5) (1/2), some ("Unknown prompt: " ++ "B")) ∧
    (EpsilonGreedyBandit.update (EpsilonGreedyBandit.init ["A"] (1/5) (1/2)) "B" 1).1.values =
      (EpsilonGreedyBandit.init ["A"] (1/5) (1/2)).values ∧
    (EpsilonGreedyBandit.update (EpsilonGreedyBandit.init ["A"] (1/5) (1/2)) "B" 1).1.counts =
      (EpsilonGreedyBandit.init ["A"] (1/5) (1/2)).counts ∧
    (EpsilonGreedyBandit.update (EpsilonGreedyBandit.init ["A"] (1/5) (1/2)) "B" 1).1.total_selections =
      (EpsilonGreedyBandit.init ["A"] (1/5) (1/2)).total_selections ∧
    (EpsilonGreedyBandit.update (EpsilonGreedyBandit.init ["A"] (1/5) (1/2)) "B" 1).1.history =
      (EpsilonGreedyBandit.init ["A"] (1/5) (1/2)).history :=
  bandit_update_unknown_prompt (EpsilonGreedyBandit.init ["A"] (1/5) (1/2)) "B" 1 (by decide)

/-- C9: `save_state` followed by `load_state` on a fresh bandit restores
prompts, epsilon, values, counts and total_selections exactly (the history
is truncated to its last 100 entries, which the claim sets aside). -/
theorem bandit_save_load_roundtrip (b fresh : EpsilonGreedyBandit) :
    ∃ restored,
      EpsilonGreedyBandit.load_state fresh (EpsilonGreedyBandit.save_state b) =
        some restored ∧
      restored.prompts = b.prompts ∧
      restored.epsilon = b.epsilon ∧
      restored.values = b.values ∧
      restored.counts = b.counts ∧
      restored.total_selections = b.total_selections :=
  ⟨_, EpsilonGreedyBandit.load_save_roundtrip b fresh, rfl, rfl, rfl, rfl, rfl⟩

/-- C2 counterexample: with score list `[{name: "m", score: 1}]` and weight
table `{"m": -1}` the code returns 0.0 while the claimed weighted mean
Σwᵢsᵢ/Σwᵢ is 1 (and the total weight −1 is not zero), so the claim fails for
this weight table. -/
theorem aggregate_scores_counterexample :
    aggregate_scores [⟨some "m", some 1⟩] [("m", -1)] = 0 ∧
    claimAggregate [⟨some "m", some 1⟩] [("m", -1)] = 1 ∧
    totalWeight [⟨some "m", some 1⟩] [("m", -1)] ≠ 0 ∧
    (0 : ℚ) ≠ 1 := by
  refine ⟨?_, ?_, ?_, by norm_num⟩
  · simp only [aggregate_scores, List.foldl_cons, List.foldl_nil, dlookup]
    norm_num
  · have hw : totalWeight [⟨some "m", some 1⟩] [("m", -1)] = -1 := by
      simp [totalWeight, weightOf, dlookup]
    have hs : weightedSum [⟨some "m", some 1⟩] [("m", -1)] = -1 := by
      simp [weightedSum, weightOf, dlookup]
    rw [claimAggregate, hw, hs]
    norm_num
  · have hw : totalWeight [⟨some "m", some 1⟩] [("m", -1)] = -1 := by
      simp [totalWeight, weightOf, dlookup]
    rw [hw]
    norm_num

/-- C2 (amended): `aggregate_scores` returns the weighted mean Σwᵢsᵢ/Σwᵢ
over exactly the records whose name is present in both the score list and
the weight table whenever that total weight is positive, and 0.0 whenever
the total weight is ≤ 0 (in particular when the weight table is empty or no
names intersect). -/
theorem aggregate_scores_weighted_mean (component_scores : List ScoreDict)
    (weights : List (String × ℚ)) :
    aggregate_scores component_scores weights =
      if 0 < totalWeight component_scores weights then
        weightedSum component_scores weights / totalWeight component_scores weights
      else 0 := by
  unfold aggregate_scores
  rw [aggregate_foldl_eq]
  simp

/-- C10: whenever the negation-marker regex does not match, `score` returns
1.0 — for every rule table, whatever the affirmative patterns do. -/
theorem tam_no_marker_scores_one (rules : TamRules) (text : List Char)
    (h : rules.negMarker text = false) :
    (TAMParticles.score rules text).score = 1 := by
  simp [TAMParticles.score, TAMParticles.checkNegativeContext, h,
    TAMParticles.checkAffirmativeContext]

/-- C10 witness: an affirmative sentence under the standard rule table
scores 1.0. -/
theorem tam_no_marker_scores_one_witness :
    (TAMParticles.score TAMParticles.standardTamRules "Ua hele ʻo ia.".data).score = 1 :=
  tam_no_marker_scores_one TAMParticles.standardTamRules "Ua hele ʻo ia.".data (by decide)

theorem rankLe_trans (a b c : ScoredCandidate) :
    decide (b.R ≤ a.R) = true → decide (c.R ≤ b.R) = true →
    decide (c.R ≤ a.R) = true := by
  simp only [decide_eq_true_eq]
  exact fun h1 h2 => le_trans h2 h1

theorem rankLe_total (a b : ScoredCandidate) :
    (decide (b.R ≤ a.R) || decide (a.R ≤ b.R)) = true := by
  simp only [Bool.or_eq_true, decide_eq_true_eq]
  exact (le_total b.R a.R)

/-- C3: for a non-empty candidate list, the returned list is a permutation
of the scored candidates sorted by `R` descending, the sort is stable
(candidates in input order with equal or descending `R` stay in that
order), and the returned best candidate is the first element — hence the
maximum by `R`. -/
theorem candidates_sorted_best_first (cs : List ScoredCandidate) (hne : cs ≠ []) :
    (sortCandidates cs).Perm cs ∧
    (sortCandidates cs).Pairwise (fun a b => b.R ≤ a.R) ∧
    (∀ a b : ScoredCandidate, [a, b].Sublist cs → b.R ≤ a.R →
      [a, b].Sublist (sortCandidates cs)) ∧
    ∃ best rest, sortCandidates cs = best :: rest ∧
      bestCandidate cs = some best ∧ ∀ x ∈ cs, x.R ≤ best.R := by
  have hperm : (sortCandidates cs).Perm cs := List.mergeSort_perm cs _
  have hsorted : (sortCandidates cs).Pairwise (fun a b => b.R ≤ a.R) := by
    have h := List.sorted_mergeSort rankLe_trans rankLe_total cs
    exact h.imp (by simp)
  refine ⟨hperm, hsorted, ?_, ?_⟩
  · intro a b hsub hab
    exact List.pair_sublist_mergeSort rankLe_trans rankLe_total
      (by simpa using hab) hsub
  · have hne' : sortCandidates cs ≠ [] := by
      intro h
      exact hne (List.Perm.eq_nil (h ▸ hperm).symm)
    obtain ⟨best, rest, hbr⟩ := List.exists_cons_of_ne_nil hne'
    refine ⟨best, rest, hbr, ?_, ?_⟩
    · simp [bestCandidate, hbr]
    · intro x hx
      have hx' : x ∈ sortCandidates cs := hperm.symm.subset hx
      rw [hbr] at hx'
      rcases List.mem_cons.mp hx' with h | h
      · exact h ▸ le_rfl
      · have := hsorted
        rw [hbr] at this
        exact (List.pairwise_cons.mp this).1 x h

/-- C3 witness: a concrete two-candidate segment; the tied pair keeps
generation order and the best is the head. -/
theorem candidates_sorted_best_first_witness :
    (sortCandidates [⟨"c0", "x", 1⟩, ⟨"c1", "y", 1⟩]).Perm
      [⟨"c0", "x", 1⟩, ⟨"c1", "y", 1⟩] ∧
    (sortCandidates [⟨"c0", "x", 1⟩, ⟨"c1", "y", 1⟩]).Pairwise
      (fun a b => b.R ≤ a.R) ∧
    (∀ a b : ScoredCandidate,
      [a, b].Sublist [⟨"c0", "x", 1⟩, ⟨"c1", "y", 1⟩] → b.R ≤ a.R →
      [a, b].Sublist (sortCandidates [⟨"c0", "x", 1⟩, ⟨"c1", "y", 1⟩])) ∧
    ∃ best rest, sortCandidates [⟨"c0", "x", 1⟩, ⟨"c1", "y", 1⟩] = best :: rest ∧
      bestCandidate [⟨"c0", "x", 1⟩, ⟨"c1", "y", 1⟩] = some best ∧
      ∀ x ∈ [(⟨"c0", "x", 1⟩ : ScoredCandidate), ⟨"c1", "y", 1⟩], x.R ≤ best.R :=
  candidates_sorted_best_first [⟨"c0", "x", 1⟩, ⟨"c1", "y", 1⟩] (by simp)

/-- C4: when the negation marker matches, the TAM score is 1.0 iff some
`neg.valid` pattern matches and no `neg.invalid` pattern does; it is 0.0
whenever some `neg.invalid` pattern matches; and 0.5 when neither kind
matches.  For `"ʻAʻole ua."` under the standard rule table the score is 0.0
with `has_negative = true` and a non-empty `invalid_patterns` list. -/
theorem tam_negative_scoring :
    (∀ (rules : TamRules) (text : List Char), rules.negMarker text = true →
      (((TAMParticles.score rules text).score = 1 ↔
          (∃ p ∈ rules.negValid, p.search text = true) ∧
            (∀ p ∈ rules.negInvalid, p.search text = false)) ∧
        ((∃ p ∈ rules.negInvalid, p.search text = true) →
          (TAMParticles.score rules text).score = 0) ∧
        (((¬∃ p ∈ rules.negValid, p.search text = true) ∧
            (¬∃ p ∈ rules.negInvalid, p.search text = true)) →
          (TAMParticles.score rules text).score = 1/2))) ∧
    ((TAMParticles.score TAMParticles.standardTamRules "ʻAʻole ua.".data).score = 0 ∧
      (TAMParticles.score TAMParticles.standardTamRules
        "ʻAʻole ua.".data).details.has_negative = true ∧
      (TAMParticles.score TAMParticles.standardTamRules
        "ʻAʻole ua.".data).details.invalid_patterns ≠ []) := by
  constructor
  · intro rules text hm
    have hV : ((rules.negValid.filter fun p => p.search text) ≠ []) ↔
        (∃ p ∈ rules.negValid, p.search text = true) := by
      rw [Ne, List.filter_eq_nil_iff]
      push_neg
      simp
    have hI : ((rules.negInvalid.filter fun p => p.search text) ≠ []) ↔
        (∃ p ∈ rules.negInvalid, p.search text = true) := by
      rw [Ne, List.filter_eq_nil_iff]
      push_neg
      simp
    have hI' : ((rules.negInvalid.filter fun p => p.search text) = []) ↔
        (∀ p ∈ rules.negInvalid, p.search text = false) := by
      rw [List.filter_eq_nil_iff]
      simp
    by_cases hv : (rules.negValid.filter fun p => p.search text) = [] <;>
      by_cases hi : (rules.negInvalid.filter fun p => p.search text) = []
    · have hsc : (TAMParticles.score rules text).score = 1/2 := by
        simp [TAMParticles.score, TAMParticles.checkNegativeContext, hm, hv, hi]
      refine ⟨?_, ?_, fun _ => hsc⟩
      · rw [hsc]
        constructor
        · intro h; exact absurd h (by norm_num)
        · rintro ⟨hex, -⟩
          exact absurd (hV.mpr hex) (by simp [hv])
      · intro hex
        exact absurd (hI.mpr hex) (by simp [hi])
    · have hsc : (TAMParticles.score rules text).score = 0 := by
        simp [TAMParticles.score, TAMParticles.checkNegativeContext, hm, hv, hi]
      refine ⟨?_, fun _ => hsc, ?_⟩
      · rw [hsc]
        constructor
        · intro h; exact absurd h (by norm_num)
        · rintro ⟨-, hall⟩
          exact absurd (hI'.mpr hall) hi
      · rintro ⟨-, hnex⟩
        exact absurd (hI.mp hi) hnex
    · have hsc : (TAMParticles.score rules text).score = 1 := by
        simp [TAMParticles.score, TAMParticles.checkNegativeContext, hm, hv, hi]
      refine ⟨?_, ?_, ?_⟩
      · rw [hsc]
        exact ⟨fun _ => ⟨hV.mp hv, hI'.mp hi⟩, fun _ => rfl⟩
      · intro hex
        exact absurd (hI.mpr hex) (by simp [hi])
      · rintro ⟨hnex, -⟩
        exact absurd (hV.mp hv) hnex
    · have hsc : (TAMParticles.score rules text).score = 0 := by
        simp [TAMParticles.score, TAMParticles.checkNegativeContext, hm, hv, hi]
      refine ⟨?_, fun _ => hsc, ?_⟩
      · rw [hsc]
        constructor
        · intro h; exact absurd h (by norm_num)
        · rintro ⟨-, hall⟩
          exact absurd (hI'.mpr hall) hi
      · rintro ⟨-, hnex⟩
        exact absurd (hI.mp hi) hnex
  · have hc : TAMParticles.checkNegativeContext TAMParticles.standardTamRules
        "ʻAʻole ua.".data =
        { has_negative := true, valid := false, valid_patterns := []
          invalid_patterns := ["ʻAʻole ua"] } := by decide
    refine ⟨?_, ?_, ?_⟩ <;>
      simp [TAMParticles.score, hc]

/-- C4 witness: a valid negated sentence under the standard rule table
(marker matches, a valid pattern matches, no invalid pattern) scores 1.0. -/
theorem tam_negative_scoring_witness :
    (TAMParticles.score TAMParticles.standardTamRules "ʻAʻole e hele.".data).score = 1 := by
  have h := tam_negative_scoring.1 TAMParticles.standardTamRules
    "ʻAʻole e hele.".data (by decide)
  refine h.1.mpr ⟨⟨⟨"ʻAʻole e VERB", TAMParticles.ciSearch "ʻaʻole e ".data⟩, ?_, ?_⟩, ?_⟩
  · simp [TAMParticles.standardTamRules]
  · decide
  · decide

/-- C5 counterexample: with an empty exception list, for the text
`"ke ʻaina"` (next word starting with the ʻokina, outside `{k, e, a, o}`)
the claim requires `ka`, so the claimed score is 0, but the code counts the
pair correct — ʻokina is in its letter list — and returns 1. -/
theorem keka_okina_counterexample :
    (ArticlesKeKa.score [] "ke ʻaina".data).score = 1 ∧
    ArticlesKeKa.claimScore [] "ke ʻaina".data = 0 ∧ (1 : ℚ) ≠ 0 := by
  have hp : ArticlesKeKa.findArticlePairs (pySplit "ke ʻaina".data) =
      [(0, ['k', 'e'], ['ʻ', 'a', 'i', 'n', 'a'])] := by decide
  refine ⟨?_, ?_, by norm_num⟩
  · simp only [ArticlesKeKa.score, hp]
    norm_num
    decide
  · simp only [ArticlesKeKa.claimScore, hp]
    norm_num
    decide

/-- C5 (amended): a pair is counted correct iff the article is `ke` when the
next word's first character is in `{k, e, a, o, ʻ}` — the ʻokina included —
or the word is in the exception list, and `ka` in every other case; the
score is correct pairs over checked pairs, and 1.0 when no pair exists. -/
theorem keka_score_rule (ke_exceptions : List (List Char)) (text : List Char) :
    (ArticlesKeKa.score ke_exceptions text).checked =
      (ArticlesKeKa.findArticlePairs (pySplit text)).length ∧
    (ArticlesKeKa.findArticlePairs (pySplit text) = [] →
      (ArticlesKeKa.score ke_exceptions text).score = 1) ∧
    (ArticlesKeKa.findArticlePairs (pySplit text) ≠ [] →
      (ArticlesKeKa.score ke_exceptions text).score =
        ((ArticlesKeKa.findArticlePairs (pySplit text)).countP fun pr =>
          ArticlesKeKa.amendedPairCorrect ke_exceptions pr.2.1 pr.2.2 : ℕ) /
        ((ArticlesKeKa.findArticlePairs (pySplit text)).length : ℚ)) := by
  by_cases hp : ArticlesKeKa.findArticlePairs (pySplit text) = []
  · refine ⟨?_, fun _ => ?_, fun h => absurd hp h⟩ <;>
      simp [ArticlesKeKa.score, hp]
  · have hcount : ∀ pairs : List (ℕ × List Char × List Char),
        (pairs.map fun pr =>
          let article := pr.2.1
          let next_word := pr.2.2
          let should_be_ke := ArticlesKeKa.shouldUseKe ke_exceptions next_word
          let is_correct := (should_be_ke && (pyLower article == ['k', 'e'])) ||
            (!should_be_ke && (pyLower article == ['k', 'a']))
          { article := article
            word := next_word
            correct := is_correct
            should_be := if should_be_ke then ['k', 'e'] else ['k', 'a']
            reason := if pyLower next_word ∈ ke_exceptions then "exception"
              else "KEAO rule"
            : ArticlesKeKa.PairDetail }).countP (·.correct) =
        pairs.countP fun pr =>
          ArticlesKeKa.amendedPairCorrect ke_exceptions pr.2.1 pr.2.2 := by
      intro pairs
      rw [List.countP_map]
      apply List.countP_congr
      intro pr _
      simp only [Function.comp]
      rcases hs : ArticlesKeKa.shouldUseKe ke_exceptions pr.2.2 <;>
        simp [ArticlesKeKa.amendedPairCorrect, hs]
    have hp' : ArticlesKeKa.findArticlePairsAux 0 (pySplit text) ≠ [] := by
      simpa [ArticlesKeKa.findArticlePairs] using hp
    refine ⟨?_, fun h => absurd h hp, fun _ => ?_⟩ <;>
      · simp only [ArticlesKeKa.score, ArticlesKeKa.findArticlePairs] at hcount ⊢
        rw [hcount, if_neg hp']

/-- C5 witness: for `"Ke keiki"` with an empty exception list the amended
rule yields score `1/1`. -/
theorem keka_score_rule_witness :
    (ArticlesKeKa.score [] "Ke keiki".data).score =
      ((ArticlesKeKa.findArticlePairs (pySplit "Ke keiki".data)).countP fun pr =>
        ArticlesKeKa.amendedPairCorrect [] pr.2.1 pr.2.2 : ℕ) /
      ((ArticlesKeKa.findArticlePairs (pySplit "Ke keiki".data)).length : ℚ) :=
  (keka_score_rule [] "Ke keiki".data).2.2 (by decide)

theorem count_div_length_unit {α : Type} (l : List α) (p : α → Bool) (h : l ≠ []) :
    0 ≤ ((l.countP p : ℕ) : ℚ) / (l.length : ℚ) ∧
    ((l.countP p : ℕ) : ℚ) / (l.length : ℚ) ≤ 1 := by
  have hl : 0 < (l.length : ℚ) := by
    exact_mod_cast List.length_pos.mpr h
  have hc : ((l.countP p : ℕ) : ℚ) ≤ (l.length : ℚ) := by
    exact_mod_cast List.countP_le_length p
  exact ⟨by positivity, by rw [div_le_one hl]; exact hc⟩

theorem clamp_formula_unit (e m : ℕ) :
    0 ≤ max 0 (1 - (e : ℚ) / ((max m 1 : ℕ) : ℚ)) ∧
    max 0 (1 - (e : ℚ) / ((max m 1 : ℕ) : ℚ)) ≤ 1 := by
  constructor
  · exact le_max_left 0 _
  · apply max_le
    · norm_num
    · have : 0 ≤ (e : ℚ) / ((max m 1 : ℕ) : ℚ) := by positivity
      linarith

/-- C6: every metric implementation returns a score in [0, 1]: the three
Hawaiian metrics for every input text (and every loaded resource), and the
four English metrics for every outcome of their detection layers. -/
theorem metric_scores_in_unit_interval :
    (∀ (required_forms : List (List Char)) (text : List Char),
      0 ≤ (Diacritics.score required_forms text).score ∧
        (Diacritics.score required_forms text).score ≤ 1) ∧
    (∀ (rules : TamRules) (text : List Char),
      0 ≤ (TAMParticles.score rules text).score ∧
        (TAMParticles.score rules text).score ≤ 1) ∧
    (∀ (ke_exceptions : List (List Char)) (text : List Char),
      0 ≤ (ArticlesKeKa.score ke_exceptions text).score ∧
        (ArticlesKeKa.score ke_exceptions text).score ≤ 1) ∧
    (∀ errors checks : ℕ,
      0 ≤ ArticlesAAn.scoreVal errors checks ∧
        ArticlesAAn.scoreVal errors checks ≤ 1) ∧
    (∀ errors checks : ℕ,
      0 ≤ SubjectVerbAgreement.scoreVal errors checks ∧
        SubjectVerbAgreement.scoreVal errors checks ≤ 1) ∧
    (∀ errors words_checked : ℕ,
      0 ≤ SpellingChecker.scoreVal errors words_checked ∧
        SpellingChecker.scoreVal errors words_checked ≤ 1) ∧
    (∀ errors sentences commas : ℕ,
      0 ≤ PunctuationChecker.scoreVal errors sentences commas ∧
        PunctuationChecker.scoreVal errors sentences commas ≤ 1) := by
  refine ⟨?_, ?_, ?_, ?_, ?_, ?_, ?_⟩
  · intro required_forms text
    simp only [Diacritics.score]
    by_cases h : (pySplit text).filterMap (fun word =>
        match required_forms.find? (fun required =>
          Diacritics.stripDiacritics required ==
            Diacritics.stripDiacritics (pyLower (Diacritics.normalizeWord word))) with
        | some required =>
          some { word := word, normalized := pyLower (Diacritics.normalizeWord word)
                 required := required
                 correct := pyLower (Diacritics.normalizeWord word) == required
                 : Diacritics.CheckedWord }
        | none => none) = []
    · simp [h]
    · simp only [if_neg h]
      exact count_div_length_unit _ _ h
  · intro rules text
    rcases h1 : (TAMParticles.checkNegativeContext rules text).has_negative <;>
      simp only [TAMParticles.score, TAMParticles.checkAffirmativeContext, h1] <;>
      split_ifs <;> norm_num
  · intro ke_exceptions text
    simp only [ArticlesKeKa.score]
    by_cases h : ArticlesKeKa.findArticlePairs (pySplit text) = []
    · simp [h]
    · simp only [if_neg h]
      have hc := count_div_length_unit
        (ArticlesKeKa.findArticlePairs (pySplit text))
        (fun pr => ArticlesKeKa.amendedPairCorrect ke_exceptions pr.2.1 pr.2.2) h
      have hrw : ((ArticlesKeKa.findArticlePairs (pySplit text)).map fun pr =>
          let article := pr.2.1
          let next_word := pr.2.2
          let should_be_ke := ArticlesKeKa.shouldUseKe ke_exceptions next_word
          let is_correct := (should_be_ke && (pyLower article == ['k', 'e'])) ||
            (!should_be_ke && (pyLower article == ['k', 'a']))
          { article := article
            word := next_word
            correct := is_correct
            should_be := if should_be_ke then ['k', 'e'] else ['k', 'a']
            reason := if pyLower next_word ∈ ke_exceptions then "exception"
              else "KEAO rule"
            : ArticlesKeKa.PairDetail }).countP (·.correct) =
          (ArticlesKeKa.findArticlePairs (pySplit text)).countP fun pr =>
            ArticlesKeKa.amendedPairCorrect ke_exceptions pr.2.1 pr.2.2 := by
        rw [List.countP_map]
        apply List.countP_congr
        intro pr _
        simp only [Function.comp]
        rcases hs : ArticlesKeKa.shouldUseKe ke_exceptions pr.2.2 <;>
          simp [ArticlesKeKa.amendedPairCorrect, hs]
      rw [hrw]
      exact hc
  · intro errors checks; exact clamp_formula_unit errors checks
  · intro errors checks; exact clamp_formula_unit errors checks
  · intro errors words_checked; exact clamp_formula_unit errors words_checked
  · intro errors sentences commas; exact clamp_formula_unit errors (sentences * 2 + commas + 1)

/-- C7 counterexample: requesting stats for a language with no initialized
bandit fails with HTTP 404, not the claimed 400. -/
theorem stats_unknown_language_counterexample :
    errorStatus (get_language_stats [] "haw") = some 404 ∧ (404 : ℕ) ≠ 400 := by
  exact ⟨rfl, by decide⟩

/-- C7 (amended): `/stats/{lang}` fails with HTTP status 404 for a language
whose bandit has not been initialized; for a known language it returns the
bandit's statistics. -/
theorem stats_endpoint_behaviour (bandits : List (String × EpsilonGreedyBandit))
    (lang_code : String) :
    (dlookup bandits lang_code = none →
      get_language_stats bandits lang_code =
        .error (404, "Language " ++ lang_code ++ " not initialized")) ∧
    (∀ b st, dlookup bandits lang_code = some b →
      EpsilonGreedyBandit.get_stats b = some st →
      get_language_stats bandits lang_code = .ok st) := by
  constructor
  · intro h
    simp [get_language_stats, h]
  · intro b st hb hst
    simp [get_language_stats, hb, hst]

/-- C7 witness: the 404 branch at a concrete empty bandit map. -/
theorem stats_endpoint_behaviour_witness :
    get_language_stats [] "haw" =
      .error (404, "Language " ++ "haw" ++ " not initialized") :=
  (stats_endpoint_behaviour [] "haw").1 rfl

end RLVR
